import Mathlib

/-!
Shallow embedding of the DiagTask diagnostic console (diagtask.cpp /
diagtask.hpp).

C strings (`char *` buffers) are modelled as `List Char`.  None of the
strings handled here ever contains the NUL byte: hook names and
descriptions come from NUL-terminated C strings, and the input buffer
only receives characters `c >= 0` after the normalization that maps
NUL to the line terminator.  Under this precondition `strncmp(a, b, n)
== 0` coincides with `List.take n` equality and `&s[i]` with
`List.drop i`.

Hook callbacks (C function pointers) are modelled as numeric
identifiers; a callback invocation is recorded as an `Event` in the
output trace, as is every `putchar`/`printf` the source performs.

Compile-time configuration is the default of diagtask.hpp:
DIAGTASK_ENABLE_HELP = 1, DIAGTASK_ENABLE_SEPARATOR = 1,
DIAGTASK_ENABLE_SEARCH = 0, DIAGTASK_ENABLE_REBOOT = 1,
DIAGTASK_ENABLE_TAB_COMPLETION = 1, ENABLE_ECHO = 1, and the numeric
limits below.  The branches that the preprocessor removes under these
defaults (the search command, the read* helpers) are omitted
accordingly.
-/

/-- DIAGTASK_MAX_HOOKNAME_LEN (diagtask.hpp). -/
def DIAGTASK_MAX_HOOKNAME_LEN : Nat := 20

/-- DIAGTASK_MAX_HOOK_INPUT_LEN = DIAGTASK_MAX_HOOKNAME_LEN + 10 (diagtask.hpp). -/
def DIAGTASK_MAX_HOOK_INPUT_LEN : Nat := DIAGTASK_MAX_HOOKNAME_LEN + 10

/-- DIAGTASK_MIN_HOOKNAME_LEN (diagtask.hpp). -/
def DIAGTASK_MIN_HOOKNAME_LEN : Nat := 1

/-- DIAGTASK_HOOKDESC_LEN (diagtask.hpp). -/
def DIAGTASK_HOOKDESC_LEN : Nat := 20

/-- SPECIAL_KEYWORD_HELP (diagtask.cpp). -/
def SPECIAL_KEYWORD_HELP : Char := '?'

/-- SPECIAL_KEYWORD_SEPARATOR (diagtask.cpp). -/
def SPECIAL_KEYWORD_SEPARATOR : Char := '#'

/-- SPECIAL_KEYWORD_SEARCH (diagtask.cpp). -/
def SPECIAL_KEYWORD_SEARCH : Char := '/'

/-- SPECIAL_KEYWORD_TAB (diagtask.cpp). -/
def SPECIAL_KEYWORD_TAB : Char := '\t'

/-- SPECIAL_KEYWORD_REBOOT (diagtask.cpp). -/
def SPECIAL_KEYWORD_REBOOT : Char := '!'

/-- SPECIAL_KEYWORD_WILDCARD (diagtask.cpp). -/
def SPECIAL_KEYWORD_WILDCARD : Char := '*'

/-- DiagTask::features_t (diagtask.hpp). -/
def feature_None : Nat := 0x00

/-- DiagTask::features_t (diagtask.hpp). -/
def feature_Help : Nat := 0x01

/-- DiagTask::features_t (diagtask.hpp); the source spells it this way. -/
def feature_Seperator : Nat := 0x02

/-- DiagTask::features_t (diagtask.hpp). -/
def feature_Search : Nat := 0x04

/-- DiagTask::features_t (diagtask.hpp). -/
def feature_Reboot : Nat := 0x08

/-- DiagTask::features_t (diagtask.hpp). -/
def feature_TabCompletion : Nat := 0x10

/-- DiagTask::hookEntry_t (diagtask.hpp): bounded name, bounded
description, and the callback function pointer (modelled as a numeric
identifier; it is never NUL since registerHook rejects a null hook). -/
structure hookEntry_t where
  name : List Char
  description : List Char
  hook : Nat
  deriving DecidableEq, Repr

/-- One observable side effect of the console: an echoed character, a
callback invocation with its argument string, or one of the printf
outputs of help / separator / reboot / tab completion. -/
inductive Event where
  | echo (c : Char)
  | invoke (cb : Nat) (arg : List Char)
  | helpSpecialLine (c : Char)
  | helpHookLine (name description : List Char)
  | separatorBanner
  | rebootMsg
  | tabUniqueName (name : List Char)
  | tabCandidateLine (typed rest description : List Char)
  deriving DecidableEq, Repr

/-- The mutable state of a DiagTask object (diagtask.hpp).  `mReboot`
records whether a reboot function pointer was configured (non-NULL).
`mGetchar` and `mUptime` are external collaborators with no bearing on
the state transitions modelled here: `process` is given the character
that `mGetchar` returned, and `mUptime` only feeds the separator
banner display. -/
structure DiagTask where
  mHooks : List hookEntry_t
  mFeatures : Nat
  mCurrentValidInput : List Char
  mReboot : Bool
  deriving DecidableEq, Repr

/-- Result of DiagTask::privCheckAndProcessSpecialChars: either the
character was consumed (returning the updated state and the emitted
output), or it was not a special character (`notHandled`), or the
reboot branch was taken, which executes `while(1);` and never returns
(`hang`). -/
inductive SpecialResult where
  | handled (t : DiagTask) (out : List Event)
  | hang (out : List Event)
  | notHandled
  deriving DecidableEq, Repr

/-- Result of DiagTask::processTabCompetion: the character was consumed
(`handled`, with updated state and output) or not. -/
inductive TabResult where
  | handled (t : DiagTask) (out : List Event)
  | notHandled
  deriving DecidableEq, Repr

/-- Result of one DiagTask::process call on a received character:
either the call returns with a new state and output trace, or it never
returns (the reboot `while(1);`). -/
inductive ProcResult where
  | ret (t : DiagTask) (out : List Event)
  | hang (out : List Event)
  deriving DecidableEq, Repr

/-- The normalization at the top of DiagTask::process: `'\0'` and
`'\r'` are replaced by `'\n'`. -/
def normChar (c : Char) : Char :=
  if c = '\x00' ∨ c = '\r' then '\n' else c

/-- The ENABLE_ECHO block of DiagTask::process: the character is echoed
unless it is one of tab, separator, help, reboot. -/
def echoEvents (c : Char) : List Event :=
  if c ≠ SPECIAL_KEYWORD_TAB ∧ c ≠ SPECIAL_KEYWORD_SEPARATOR
      ∧ c ≠ SPECIAL_KEYWORD_HELP ∧ c ≠ SPECIAL_KEYWORD_REBOOT then
    [Event.echo c]
  else
    []

/-- `strchr(s, c)` as a position: index of the first occurrence of `c`
in `s`, or `none` (NULL) if absent. -/
def strchrPos (s : List Char) (c : Char) : Option Nat :=
  match s with
  | [] => none
  | x :: xs => if x = c then some 0 else (strchrPos xs c).map (· + 1)

/-- The `lenHook` computation of DiagTask::privFindHooks: the number of
characters before the wildcard marker, or the full name length if the
name has no wildcard. -/
def staticLen (name : List Char) : Nat :=
  match strchrPos name SPECIAL_KEYWORD_WILDCARD with
  | none => name.length
  | some p => p

/-- `strncmp(a, b, n) == 0` for NUL-free strings: the first `n`
characters agree (comparison stops at the end of the shorter string,
which `List.take` reproduces: a length mismatch below `n` makes the
takes unequal exactly as NUL-vs-character does for strncmp). -/
def strncmpEq (a b : List Char) (n : Nat) : Bool :=
  a.take n = b.take n

/-- DiagTask::privFindHooks: walk mHooks in order and push_back every
hook whose name agrees with the input over
min(static length, input length) characters. -/
def privFindHooks (hooks : List hookEntry_t) (pfx : List Char) : List hookEntry_t :=
  match hooks with
  | [] => []
  | h :: rest =>
    if strncmpEq h.name pfx (min (staticLen h.name) pfx.length) then
      h :: privFindHooks rest pfx
    else
      privFindHooks rest pfx

/-- DiagTask::privHelp, under the default compile-time flags: a
newline, the "? - help", "# - separator" and "! - reboot" lines (the
search line is compiled out since DIAGTASK_ENABLE_SEARCH = 0), then
one line per registered hook.  Note these special-command lines are
guarded only by the compile-time DIAGTASK_ENABLE_* flags, not by the
runtime feature mask. -/
def privHelp (t : DiagTask) : List Event :=
  [Event.echo '\n',
   Event.helpSpecialLine SPECIAL_KEYWORD_HELP,
   Event.helpSpecialLine SPECIAL_KEYWORD_SEPARATOR,
   Event.helpSpecialLine SPECIAL_KEYWORD_REBOOT]
  ++ t.mHooks.map (fun h => Event.helpHookLine h.name h.description)

/-- DiagTask::privCheckAndProcessSpecialChars, under the default
compile-time flags (the search branch is compiled out).  Help and
separator reset the input buffer and report handled; reboot prints,
invokes the configured reboot pointer and then loops forever
(`hang`).  The separator banner contents (counter, uptime) are display
only and abstracted into one event. -/
def privCheckAndProcessSpecialChars (t : DiagTask) (input : Char) : SpecialResult :=
  if t.mFeatures &&& feature_Help ≠ 0 ∧ input = SPECIAL_KEYWORD_HELP then
    SpecialResult.handled { t with mCurrentValidInput := [] } (privHelp t)
  else if t.mFeatures &&& feature_Seperator ≠ 0 ∧ input = SPECIAL_KEYWORD_SEPARATOR then
    SpecialResult.handled { t with mCurrentValidInput := [] } [Event.separatorBanner]
  else if t.mFeatures &&& feature_Reboot ≠ 0 ∧ t.mReboot = true ∧ input = SPECIAL_KEYWORD_REBOOT then
    SpecialResult.hang [Event.rebootMsg]
  else
    SpecialResult.notHandled

/-- DiagTask::processTabCompetion.  When the tab feature is enabled and
the character is the tab trigger: with an empty buffer nothing is done
(but the character is still consumed); with exactly one candidate its
name is printed, its callback invoked with the empty argument and the
buffer reset; otherwise a newline and one line per candidate (the part
of the name past the typed input, plus the description) are printed
and the buffer is left untouched. -/
def processTabCompetion (t : DiagTask) (input : Char) : TabResult :=
  if t.mFeatures &&& feature_TabCompletion ≠ 0 ∧ input = SPECIAL_KEYWORD_TAB then
    if t.mCurrentValidInput = [] then
      TabResult.handled t []
    else
      match privFindHooks t.mHooks t.mCurrentValidInput with
      | [h] =>
        TabResult.handled { t with mCurrentValidInput := [] }
          [Event.tabUniqueName h.name, Event.invoke h.hook []]
      | hs =>
        TabResult.handled t
          (Event.echo '\n' :: hs.map (fun h =>
            Event.tabCandidateLine t.mCurrentValidInput
              (h.name.drop t.mCurrentValidInput.length) h.description))
  else
    TabResult.notHandled

/-- The tail of the DiagTask::process loop body, from the append
`mCurrentValidInput[len] = c` on: append the character, query
privFindHooks, and act on zero / exactly one / several candidates.
The single-candidate branch requires the buffer length to reach the
FULL name length `strlen(filterredHooks[0].name)`; a wildcard hook
then fires only when the appended character is the terminator, with
the argument `&mCurrentValidInput[argIdx]` of the
terminator-stripped buffer (= the pre-append buffer), while a
non-wildcard hook fires at once with the empty argument. -/
def processAppend (t : DiagTask) (c : Char) : DiagTask × List Event :=
  match privFindHooks t.mHooks (t.mCurrentValidInput ++ [c]) with
  | [] => ({ t with mCurrentValidInput := [] }, [])
  | h :: rest =>
    if rest = [] ∧ h.name.length ≤ (t.mCurrentValidInput ++ [c]).length then
      match strchrPos h.name SPECIAL_KEYWORD_WILDCARD with
      | some argIdx =>
        if c = '\n' then
          ({ t with mCurrentValidInput := [] },
           [Event.echo '\n', Event.invoke h.hook (t.mCurrentValidInput.drop argIdx)])
        else
          ({ t with mCurrentValidInput := t.mCurrentValidInput ++ [c] }, [])
      | none =>
        ({ t with mCurrentValidInput := [] },
         [Event.echo '\n', Event.invoke h.hook []])
    else
      ({ t with mCurrentValidInput := t.mCurrentValidInput ++ [c] }, [])

/-- DiagTask::process for one received character `c0` (the value
mGetchar returned; the `c < 0` "no byte" case and a NULL mGetchar are
immediate no-op returns in the source and are not part of this step).
Order of the source: normalize, echo, then in the (single-pass) loop:
buffer-full check, special characters (only with an empty buffer), tab
completion, append-and-match. -/
def processChar (t : DiagTask) (c0 : Char) : ProcResult :=
  if t.mCurrentValidInput.length = DIAGTASK_MAX_HOOK_INPUT_LEN then
    ProcResult.ret { t with mCurrentValidInput := [] } (echoEvents (normChar c0))
  else
    match (if t.mCurrentValidInput = [] then
             privCheckAndProcessSpecialChars t (normChar c0)
           else SpecialResult.notHandled) with
    | SpecialResult.handled t2 out2 =>
      ProcResult.ret t2 (echoEvents (normChar c0) ++ out2)
    | SpecialResult.hang out2 =>
      ProcResult.hang (echoEvents (normChar c0) ++ out2)
    | SpecialResult.notHandled =>
      match processTabCompetion t (normChar c0) with
      | TabResult.handled t2 out2 =>
        ProcResult.ret t2 (echoEvents (normChar c0) ++ out2)
      | TabResult.notHandled =>
        ProcResult.ret (processAppend t (normChar c0)).1
          (echoEvents (normChar c0) ++ (processAppend t (normChar c0)).2)

/-- DiagTask::registerHook.  `name` and `hook` are nullable
(`Option`); failure returns `false` with the task unchanged.  On
success the entry is appended, with name and description truncated by
strncpy to their bounded capacities. -/
def registerHook (t : DiagTask) (name : Option (List Char)) (hook : Option Nat)
    (description : Option (List Char)) : Bool × DiagTask :=
  match name, hook with
  | some nm, some hk =>
    if nm.length < DIAGTASK_MIN_HOOKNAME_LEN ∨ DIAGTASK_MAX_HOOKNAME_LEN < nm.length then
      (false, t)
    else
      (true, { t with mHooks := t.mHooks ++
        [{ name := nm.take DIAGTASK_MAX_HOOKNAME_LEN,
           description := (match description with
             | some d => d.take DIAGTASK_HOOKDESC_LEN
             | none => []),
           hook := hk }] })
  | _, _ => (false, t)

/-- DiagTask::enableFeatures: assigns the whole mask. -/
def enableFeatures (t : DiagTask) (features : Nat) : DiagTask :=
  { t with mFeatures := features }

/-- Events that only a special command (help, separator, reboot) can
emit; echoes and callback invocations are shared with the ordinary
paths and excluded. -/
def isSpecialCmdEvent : Event → Bool
  | Event.helpSpecialLine _ => true
  | Event.helpHookLine _ _ => true
  | Event.separatorBanner => true
  | Event.rebootMsg => true
  | _ => false

/-- Callback-invocation events. -/
def isInvokeEvent : Event → Bool
  | Event.invoke _ _ => true
  | _ => false

/-- The state invariant of the console: the input buffer never exceeds
DIAGTASK_MAX_HOOK_INPUT_LEN, and is either empty or still consistent
with at least one registered hook. -/
def DiagInv (t : DiagTask) : Prop :=
  t.mCurrentValidInput.length ≤ DIAGTASK_MAX_HOOK_INPUT_LEN ∧
    (t.mCurrentValidInput = [] ∨ privFindHooks t.mHooks t.mCurrentValidInput ≠ [])

/-- Concrete states used by the witness and counterexample theorems. -/
def wTask1 : DiagTask :=
  { mHooks := [{ name := ['d', '*'], description := [], hook := 5 }],
    mFeatures := 0, mCurrentValidInput := ['d', 'x'], mReboot := false }

def wTask2 : DiagTask :=
  { mHooks := [{ name := ['a', 'b', 'c'], description := [], hook := 1 },
               { name := ['a', 'b', 'd'], description := [], hook := 2 }],
    mFeatures := 0, mCurrentValidInput := ['a', 'b'], mReboot := false }

def wTask0 : DiagTask :=
  { mHooks := [], mFeatures := 0, mCurrentValidInput := [], mReboot := false }

def cexWildTask : DiagTask :=
  { mHooks := [{ name := ['a', '*', 'b'], description := [], hook := 1 }],
    mFeatures := 0, mCurrentValidInput := ['a'], mReboot := false }

def cexHelpTask : DiagTask :=
  { mHooks := [{ name := ['a', 'b'], description := ['d'], hook := 3 }],
    mFeatures := feature_Help, mCurrentValidInput := [], mReboot := false }

def cexFullTask : DiagTask :=
  { mHooks := [{ name := ['a', '*'], description := [], hook := 1 }],
    mFeatures := feature_Help, mCurrentValidInput := List.replicate 30 'a',
    mReboot := false }

def cexTabFullTask : DiagTask :=
  { mHooks := [{ name := ['x', '*'], description := [], hook := 1 },
               { name := ['x', 'y', '*'], description := [], hook := 2 }],
    mFeatures := feature_TabCompletion,
    mCurrentValidInput := 'x' :: 'y' :: List.replicate 28 'y', mReboot := false }

def wTask3 : DiagTask :=
  { mHooks := [{ name := ['a', '*'], description := [], hook := 1 }],
    mFeatures := 0, mCurrentValidInput := List.replicate 30 'a', mReboot := false }

def wTask4 : DiagTask :=
  { mHooks := [{ name := ['a', 'b', 'c'], description := [], hook := 1 },
               { name := ['a', 'b', 'd'], description := [], hook := 2 }],
    mFeatures := feature_TabCompletion, mCurrentValidInput := ['a', 'b'], mReboot := false }

def wTask5 : DiagTask :=
  { mHooks := [{ name := ['q'], description := ['z'], hook := 4 }],
    mFeatures := feature_Help, mCurrentValidInput := [], mReboot := false }

theorem privFindHooks_filter_aux (hooks : List hookEntry_t) (pfx : List Char) :
    privFindHooks hooks pfx =
      hooks.filter (fun h => strncmpEq h.name pfx (min (staticLen h.name) pfx.length)) := by
  induction hooks with
  | nil => rfl
  | cons h rest ih =>
    rw [privFindHooks, List.filter_cons]
    split <;> simp [ih]

theorem privFindHooks_append_aux (xs ys : List hookEntry_t) (pfx : List Char) :
    privFindHooks (xs ++ ys) pfx = privFindHooks xs pfx ++ privFindHooks ys pfx := by
  induction xs with
  | nil => rfl
  | cons h rest ih =>
    rw [List.cons_append, privFindHooks, privFindHooks]
    split <;> simp [ih]

/-- C3: privFindHooks returns exactly the hooks, in registration order,
whose name agrees with the input over min(static length, input length)
characters in the strncmp sense: it is the registration-order filter by
that predicate (hence a sublist of the registry). -/
theorem findCandidates_strncmp_characterization (hooks : List hookEntry_t) (inp : List Char) :
    privFindHooks hooks inp =
      hooks.filter (fun h => strncmpEq h.name inp (min (staticLen h.name) inp.length))
    ∧ List.Sublist (privFindHooks hooks inp) hooks := by
  refine ⟨privFindHooks_filter_aux hooks inp, ?_⟩
  rw [privFindHooks_filter_aux]
  exact List.filter_sublist hooks

/-- C6: registerHook fails (false, registry untouched) on a null name,
a null hook, or a name length outside
[DIAGTASK_MIN_HOOKNAME_LEN, DIAGTASK_MAX_HOOKNAME_LEN]; otherwise it
returns true and appends exactly one entry at the end, with name and
description truncated to their bounded capacities. -/
theorem registerHook_contract (t : DiagTask) (name : Option (List Char)) (hk : Option Nat)
    (desc : Option (List Char)) :
    ((name = none ∨ hk = none) → registerHook t name hk desc = (false, t)) ∧
    (∀ nm, name = some nm →
      (nm.length < DIAGTASK_MIN_HOOKNAME_LEN ∨ DIAGTASK_MAX_HOOKNAME_LEN < nm.length) →
      registerHook t name hk desc = (false, t)) ∧
    (∀ nm h0, name = some nm → hk = some h0 →
      DIAGTASK_MIN_HOOKNAME_LEN ≤ nm.length → nm.length ≤ DIAGTASK_MAX_HOOKNAME_LEN →
      registerHook t name hk desc = (true, { t with mHooks := t.mHooks ++
        [{ name := nm.take DIAGTASK_MAX_HOOKNAME_LEN,
           description := (match desc with
             | some d => d.take DIAGTASK_HOOKDESC_LEN
             | none => []),
           hook := h0 }] })) := by
  refine ⟨?_, ?_, ?_⟩
  · rintro (rfl | rfl)
    · rfl
    · cases name <;> rfl
  · rintro nm rfl hout
    cases hk with
    | none => rfl
    | some h0 => simp [registerHook, hout]
  · rintro nm h0 rfl rfl hlo hhi
    have hno : ¬(nm.length < DIAGTASK_MIN_HOOKNAME_LEN ∨ DIAGTASK_MAX_HOOKNAME_LEN < nm.length) := by
      push_neg
      exact ⟨hlo, hhi⟩
    simp [registerHook, hno]

theorem registerHook_contract_witness :
    DIAGTASK_MIN_HOOKNAME_LEN ≤ (['a', 'b'] : List Char).length ∧
    registerHook wTask0 (some ['a', 'b']) (some 7) (some ['d']) =
      (true, { wTask0 with mHooks := wTask0.mHooks ++
        [{ name := (['a', 'b'] : List Char).take DIAGTASK_MAX_HOOKNAME_LEN,
           description := (['d'] : List Char).take DIAGTASK_HOOKDESC_LEN,
           hook := 7 }] }) :=
  ⟨by decide,
   (registerHook_contract wTask0 (some ['a', 'b']) (some 7) (some ['d'])).2.2
     ['a', 'b'] 7 rfl rfl (by decide) (by decide)⟩

/-- C10: enableFeatures overwrites the whole feature bitmask (bit for
bit, the result is exactly the new mask, whatever was set before) and
leaves the hook registry, the input buffer and the reboot capability
untouched. -/
theorem enableFeatures_overwrites (t : DiagTask) (m1 m2 : Nat) :
    (enableFeatures (enableFeatures t m1) m2).mFeatures = m2 ∧
    (∀ b : Nat, ((enableFeatures (enableFeatures t m1) m2).mFeatures).testBit b = m2.testBit b) ∧
    (enableFeatures (enableFeatures t m1) m2).mHooks = t.mHooks ∧
    (enableFeatures (enableFeatures t m1) m2).mCurrentValidInput = t.mCurrentValidInput ∧
    (enableFeatures (enableFeatures t m1) m2).mReboot = t.mReboot :=
  ⟨rfl, fun _ => rfl, rfl, rfl, rfl⟩

theorem processChar_append_path (t : DiagTask) (c0 : Char)
    (hfull : t.mCurrentValidInput.length ≠ DIAGTASK_MAX_HOOK_INPUT_LEN)
    (hspec : t.mCurrentValidInput = [] →
      privCheckAndProcessSpecialChars t (normChar c0) = SpecialResult.notHandled)
    (htab : processTabCompetion t (normChar c0) = TabResult.notHandled) :
    processChar t c0 = ProcResult.ret (processAppend t (normChar c0)).1
      (echoEvents (normChar c0) ++ (processAppend t (normChar c0)).2) := by
  rw [processChar.eq_def, if_neg hfull]
  by_cases he : t.mCurrentValidInput = []
  · rw [if_pos he, hspec he, htab]
  · rw [if_neg he, htab]

theorem processAppend_nil_case (t : DiagTask) (c : Char)
    (h : privFindHooks t.mHooks (t.mCurrentValidInput ++ [c]) = []) :
    processAppend t c = ({ t with mCurrentValidInput := [] }, []) := by
  rw [processAppend.eq_def, h]

theorem processAppend_single_wild_fire (t : DiagTask) (h : hookEntry_t) (argIdx : Nat)
    (hcand : privFindHooks t.mHooks (t.mCurrentValidInput ++ ['\n']) = [h])
    (hwild : strchrPos h.name SPECIAL_KEYWORD_WILDCARD = some argIdx)
    (hlen : h.name.length ≤ (t.mCurrentValidInput ++ ['\n']).length) :
    processAppend t '\n' = ({ t with mCurrentValidInput := [] },
      [Event.echo '\n', Event.invoke h.hook (t.mCurrentValidInput.drop argIdx)]) := by
  rw [processAppend.eq_def]
  split
  · next heq => rw [hcand] at heq; cases heq
  · next h' rest heq =>
    rw [hcand] at heq
    injection heq with e1 e2
    subst e1; subst e2
    rw [if_pos ⟨rfl, hlen⟩, hwild]
    rfl

theorem echoEvents_no_invoke (c : Char) : (echoEvents c).any isInvokeEvent = false := by
  rw [echoEvents]
  split <;> rfl

theorem echoEvents_no_special (c : Char) : (echoEvents c).any isSpecialCmdEvent = false := by
  rw [echoEvents]
  split <;> rfl

theorem processAppend_no_special (t : DiagTask) (c : Char) :
    ((processAppend t c).2).any isSpecialCmdEvent = false := by
  rw [processAppend.eq_def]
  split
  · rfl
  · split
    · split
      · split <;> rfl
      · rfl
    · rfl

theorem strchrPos_lt_length (s : List Char) (c : Char) (p : Nat)
    (h : strchrPos s c = some p) : p < s.length := by
  induction s generalizing p with
  | nil => cases h
  | cons x xs ih =>
    rw [strchrPos] at h
    split at h
    · cases h
      simp
    · cases hq : strchrPos xs c with
      | none => rw [hq] at h; cases h
      | some q =>
        rw [hq] at h
        simp only [Option.map_some'] at h
        cases h
        have := ih q hq
        simp only [List.length_cons]
        omega

theorem staticLen_le_length (name : List Char) : staticLen name ≤ name.length := by
  rw [staticLen]
  split
  · exact le_rfl
  · next p hp => exact le_of_lt (strchrPos_lt_length _ _ _ hp)

theorem special_not_trigger (t : DiagTask) (c : Char)
    (h1 : c ≠ SPECIAL_KEYWORD_HELP) (h2 : c ≠ SPECIAL_KEYWORD_SEPARATOR)
    (h3 : c ≠ SPECIAL_KEYWORD_REBOOT) :
    privCheckAndProcessSpecialChars t c = SpecialResult.notHandled := by
  rw [privCheckAndProcessSpecialChars.eq_def]
  rw [if_neg (fun hh => h1 hh.2), if_neg (fun hh => h2 hh.2), if_neg (fun hh => h3 hh.2.2)]

theorem tab_not_trigger (t : DiagTask) (c : Char) (h : c ≠ SPECIAL_KEYWORD_TAB) :
    processTabCompetion t c = TabResult.notHandled := by
  rw [processTabCompetion.eq_def, if_neg (fun hh => h hh.2)]

theorem processAppend_single_wild_wait (t : DiagTask) (c : Char) (h : hookEntry_t) (argIdx : Nat)
    (hcand : privFindHooks t.mHooks (t.mCurrentValidInput ++ [c]) = [h])
    (hwild : strchrPos h.name SPECIAL_KEYWORD_WILDCARD = some argIdx)
    (hlen : h.name.length ≤ (t.mCurrentValidInput ++ [c]).length)
    (hc : c ≠ '\n') :
    processAppend t c = ({ t with mCurrentValidInput := t.mCurrentValidInput ++ [c] }, []) := by
  rw [processAppend.eq_def]
  split
  · next heq => rw [hcand] at heq; cases heq
  · next h' rest heq =>
    rw [hcand] at heq
    injection heq with e1 e2
    subst e1; subst e2
    rw [if_pos ⟨rfl, hlen⟩, hwild]
    split
    · next a heq2 =>
      injection heq2 with e3
      subst e3
      rw [if_neg hc]
    · next heq2 => cases heq2

theorem processAppend_single_exact (t : DiagTask) (c : Char) (h : hookEntry_t)
    (hcand : privFindHooks t.mHooks (t.mCurrentValidInput ++ [c]) = [h])
    (hwild : strchrPos h.name SPECIAL_KEYWORD_WILDCARD = none)
    (hlen : h.name.length ≤ (t.mCurrentValidInput ++ [c]).length) :
    processAppend t c = ({ t with mCurrentValidInput := [] },
      [Event.echo '\n', Event.invoke h.hook []]) := by
  rw [processAppend.eq_def]
  split
  · next heq => rw [hcand] at heq; cases heq
  · next h' rest heq =>
    rw [hcand] at heq
    injection heq with e1 e2
    subst e1; subst e2
    rw [if_pos ⟨rfl, hlen⟩, hwild]

theorem processAppend_keep (t : DiagTask) (c : Char) (h : hookEntry_t) (rest : List hookEntry_t)
    (hcand : privFindHooks t.mHooks (t.mCurrentValidInput ++ [c]) = h :: rest)
    (hcond : ¬(rest = [] ∧ h.name.length ≤ (t.mCurrentValidInput ++ [c]).length)) :
    processAppend t c = ({ t with mCurrentValidInput := t.mCurrentValidInput ++ [c] }, []) := by
  rw [processAppend.eq_def]
  split
  · next heq => rw [hcand] at heq; cases heq
  · next h' rest' heq =>
    rw [hcand] at heq
    injection heq with e1 e2
    subst e1; subst e2
    rw [if_neg hcond]

theorem special_handled_conditions (t : DiagTask) (c : Char) (t2 : DiagTask) (out : List Event)
    (h : privCheckAndProcessSpecialChars t c = SpecialResult.handled t2 out) :
    (c = SPECIAL_KEYWORD_HELP ∧ t.mFeatures &&& feature_Help ≠ 0) ∨
    (c = SPECIAL_KEYWORD_SEPARATOR ∧ t.mFeatures &&& feature_Seperator ≠ 0) := by
  rw [privCheckAndProcessSpecialChars.eq_def] at h
  split at h
  · next hcond => exact Or.inl ⟨hcond.2, hcond.1⟩
  · split at h
    · next hcond => exact Or.inr ⟨hcond.2, hcond.1⟩
    · split at h
      · cases h
      · cases h

theorem special_hang_conditions (t : DiagTask) (c : Char) (out : List Event)
    (h : privCheckAndProcessSpecialChars t c = SpecialResult.hang out) :
    c = SPECIAL_KEYWORD_REBOOT ∧ t.mFeatures &&& feature_Reboot ≠ 0 ∧ t.mReboot = true := by
  rw [privCheckAndProcessSpecialChars.eq_def] at h
  split at h
  · cases h
  · split at h
    · cases h
    · split at h
      · next hcond => exact ⟨hcond.2.2, hcond.1, hcond.2.1⟩
      · cases h

theorem special_handled_state (t : DiagTask) (c : Char) (t2 : DiagTask) (out : List Event)
    (h : privCheckAndProcessSpecialChars t c = SpecialResult.handled t2 out) :
    t2 = { t with mCurrentValidInput := [] } := by
  rw [privCheckAndProcessSpecialChars.eq_def] at h
  split at h
  · cases h; rfl
  · split at h
    · cases h; rfl
    · split at h
      · cases h
      · cases h

theorem tab_handled_state (t : DiagTask) (c : Char) (t2 : DiagTask) (out : List Event)
    (h : processTabCompetion t c = TabResult.handled t2 out) :
    t2 = t ∨ t2 = { t with mCurrentValidInput := [] } := by
  rw [processTabCompetion.eq_def] at h
  split at h
  · split at h
    · cases h
      exact Or.inl rfl
    · split at h
      · cases h
        exact Or.inr rfl
      · cases h
        exact Or.inl rfl
  · cases h

theorem tab_handled_no_special (t : DiagTask) (c : Char) (t2 : DiagTask) (out : List Event)
    (h : processTabCompetion t c = TabResult.handled t2 out) :
    out.any isSpecialCmdEvent = false := by
  rw [processTabCompetion.eq_def] at h
  split at h
  · split at h
    · cases h
      rfl
    · split at h
      · cases h
        rfl
      · cases h
        simp [List.any_map, isSpecialCmdEvent, Function.comp]
  · cases h

theorem processTab_empty_buffer (t : DiagTask)
    (hf : t.mFeatures &&& feature_TabCompletion ≠ 0)
    (he : t.mCurrentValidInput = []) :
    processTabCompetion t SPECIAL_KEYWORD_TAB = TabResult.handled t [] := by
  rw [processTabCompetion.eq_def, if_pos ⟨hf, rfl⟩, if_pos he]

theorem processTab_unique (t : DiagTask) (h : hookEntry_t)
    (hf : t.mFeatures &&& feature_TabCompletion ≠ 0)
    (he : t.mCurrentValidInput ≠ [])
    (hcand : privFindHooks t.mHooks t.mCurrentValidInput = [h]) :
    processTabCompetion t SPECIAL_KEYWORD_TAB =
      TabResult.handled { t with mCurrentValidInput := [] }
        [Event.tabUniqueName h.name, Event.invoke h.hook []] := by
  rw [processTabCompetion.eq_def, if_pos ⟨hf, rfl⟩, if_neg he, hcand]

theorem processTab_multi (t : DiagTask) (h1 h2 : hookEntry_t) (rest : List hookEntry_t)
    (hf : t.mFeatures &&& feature_TabCompletion ≠ 0)
    (he : t.mCurrentValidInput ≠ [])
    (hcand : privFindHooks t.mHooks t.mCurrentValidInput = h1 :: h2 :: rest) :
    processTabCompetion t SPECIAL_KEYWORD_TAB =
      TabResult.handled t
        (Event.echo '\n' :: (h1 :: h2 :: rest).map (fun hh =>
          Event.tabCandidateLine t.mCurrentValidInput
            (hh.name.drop t.mCurrentValidInput.length) hh.description)) := by
  rw [processTabCompetion.eq_def, if_pos ⟨hf, rfl⟩, if_neg he, hcand]

theorem processChar_of_tab_handled (t : DiagTask) (c0 : Char) (t2 : DiagTask) (out : List Event)
    (hfull : t.mCurrentValidInput.length ≠ DIAGTASK_MAX_HOOK_INPUT_LEN)
    (hspec : t.mCurrentValidInput = [] →
      privCheckAndProcessSpecialChars t (normChar c0) = SpecialResult.notHandled)
    (htab : processTabCompetion t (normChar c0) = TabResult.handled t2 out) :
    processChar t c0 = ProcResult.ret t2 (echoEvents (normChar c0) ++ out) := by
  rw [processChar.eq_def, if_neg hfull]
  by_cases he : t.mCurrentValidInput = []
  · rw [if_pos he, hspec he, htab]
  · rw [if_neg he, htab]

theorem processChar_of_special_handled (t : DiagTask) (c0 : Char) (t2 : DiagTask) (out : List Event)
    (hfull : t.mCurrentValidInput.length ≠ DIAGTASK_MAX_HOOK_INPUT_LEN)
    (he : t.mCurrentValidInput = [])
    (hspec : privCheckAndProcessSpecialChars t (normChar c0) = SpecialResult.handled t2 out) :
    processChar t c0 = ProcResult.ret t2 (echoEvents (normChar c0) ++ out) := by
  rw [processChar.eq_def, if_neg hfull, if_pos he, hspec]

theorem processChar_ret_special_inv (t : DiagTask) (c0 : Char) (t' : DiagTask) (out : List Event)
    (h : processChar t c0 = ProcResult.ret t' out)
    (hs : out.any isSpecialCmdEvent = true) :
    t.mCurrentValidInput = [] ∧
      ((normChar c0 = SPECIAL_KEYWORD_HELP ∧ t.mFeatures &&& feature_Help ≠ 0) ∨
       (normChar c0 = SPECIAL_KEYWORD_SEPARATOR ∧ t.mFeatures &&& feature_Seperator ≠ 0)) := by
  rw [processChar.eq_def] at h
  by_cases hfull : t.mCurrentValidInput.length = DIAGTASK_MAX_HOOK_INPUT_LEN
  · rw [if_pos hfull] at h
    injection h with e1 e2
    rw [← e2, echoEvents_no_special] at hs
    cases hs
  · rw [if_neg hfull] at h
    by_cases he : t.mCurrentValidInput = []
    · rw [if_pos he] at h
      cases hps : privCheckAndProcessSpecialChars t (normChar c0) with
      | handled t2 out2 =>
        exact ⟨he, special_handled_conditions t (normChar c0) t2 out2 hps⟩
      | hang o2 =>
        rw [hps] at h
        cases h
      | notHandled =>
        rw [hps] at h
        cases hpt : processTabCompetion t (normChar c0) with
        | handled t2 out2 =>
          rw [hpt] at h
          injection h with e1 e2
          rw [← e2, List.any_append, echoEvents_no_special,
            tab_handled_no_special t (normChar c0) t2 out2 hpt] at hs
          cases hs
        | notHandled =>
          rw [hpt] at h
          injection h with e1 e2
          rw [← e2, List.any_append, echoEvents_no_special, processAppend_no_special] at hs
          cases hs
    · rw [if_neg he] at h
      cases hpt : processTabCompetion t (normChar c0) with
      | handled t2 out2 =>
        rw [hpt] at h
        injection h with e1 e2
        rw [← e2, List.any_append, echoEvents_no_special,
          tab_handled_no_special t (normChar c0) t2 out2 hpt] at hs
        cases hs
      | notHandled =>
        rw [hpt] at h
        injection h with e1 e2
        rw [← e2, List.any_append, echoEvents_no_special, processAppend_no_special] at hs
        cases hs

theorem processChar_hang_inv (t : DiagTask) (c0 : Char) (out : List Event)
    (h : processChar t c0 = ProcResult.hang out) :
    t.mCurrentValidInput = [] ∧ normChar c0 = SPECIAL_KEYWORD_REBOOT ∧
      t.mFeatures &&& feature_Reboot ≠ 0 ∧ t.mReboot = true := by
  rw [processChar.eq_def] at h
  by_cases hfull : t.mCurrentValidInput.length = DIAGTASK_MAX_HOOK_INPUT_LEN
  · rw [if_pos hfull] at h
    cases h
  · rw [if_neg hfull] at h
    by_cases he : t.mCurrentValidInput = []
    · rw [if_pos he] at h
      cases hps : privCheckAndProcessSpecialChars t (normChar c0) with
      | handled t2 out2 =>
        rw [hps] at h
        cases h
      | hang o2 =>
        exact ⟨he, special_hang_conditions t (normChar c0) o2 hps⟩
      | notHandled =>
        rw [hps] at h
        cases hpt : processTabCompetion t (normChar c0) with
        | handled t2 out2 => rw [hpt] at h; cases h
        | notHandled => rw [hpt] at h; cases h
    · rw [if_neg he] at h
      cases hpt : processTabCompetion t (normChar c0) with
      | handled t2 out2 => rw [hpt] at h; cases h
      | notHandled => rw [hpt] at h; cases h

theorem diagInv_reset (t : DiagTask) : DiagInv { t with mCurrentValidInput := [] } :=
  ⟨Nat.zero_le _, Or.inl rfl⟩

theorem processAppend_preserves_inv (t : DiagTask) (c : Char)
    (hinv : DiagInv t)
    (hfull : t.mCurrentValidInput.length ≠ DIAGTASK_MAX_HOOK_INPUT_LEN) :
    DiagInv (processAppend t c).1 := by
  have hlt : t.mCurrentValidInput.length < DIAGTASK_MAX_HOOK_INPUT_LEN :=
    lt_of_le_of_ne hinv.1 hfull
  rw [processAppend.eq_def]
  split
  · exact diagInv_reset t
  · next h' rest heq =>
    have hckeep : DiagInv { t with mCurrentValidInput := t.mCurrentValidInput ++ [c] } := by
      constructor
      · simp only [List.length_append, List.length_cons, List.length_nil]
        omega
      · refine Or.inr ?_
        intro hcontra
        rw [heq] at hcontra
        cases hcontra
    split
    · split
      · split
        · exact diagInv_reset t
        · exact hckeep
      · exact diagInv_reset t
    · exact hckeep

theorem registerHook_snd_cases (t : DiagTask) (name : Option (List Char)) (hk : Option Nat)
    (desc : Option (List Char)) :
    (registerHook t name hk desc).2 = t ∨
    ∃ e, (registerHook t name hk desc).2 = { t with mHooks := t.mHooks ++ [e] } := by
  cases name with
  | none => exact Or.inl rfl
  | some nm =>
    cases hk with
    | none => exact Or.inl rfl
    | some h0 =>
      by_cases hlen : nm.length < DIAGTASK_MIN_HOOKNAME_LEN ∨ DIAGTASK_MAX_HOOKNAME_LEN < nm.length
      · left
        simp [registerHook, hlen]
      · right
        refine ⟨{ name := nm.take DIAGTASK_MAX_HOOKNAME_LEN,
                  description := (match desc with
                    | some d => d.take DIAGTASK_HOOKDESC_LEN
                    | none => []),
                  hook := h0 }, ?_⟩
        simp [registerHook, hlen]

/-- C1 (amended): when a processed character is appended (the buffer is
below capacity and the character is consumed neither by special-command
nor by tab-completion handling) and afterwards exactly one candidate
hook remains, that hook has a wildcard, and the buffer length has
reached the hook's FULL name length (strlen of the name — not merely
its static length), then process() invokes the callback iff the
appended (normalized) character is the terminator: on the terminator it
strips it, passes the suffix of the stripped buffer from the wildcard's
offset in the name, and resets the buffer; otherwise it invokes nothing
and retains the grown buffer. -/
theorem wildcard_fires_iff_terminator (t : DiagTask) (c0 : Char) (h : hookEntry_t) (argIdx : Nat)
    (hfull : t.mCurrentValidInput.length ≠ DIAGTASK_MAX_HOOK_INPUT_LEN)
    (hspec : t.mCurrentValidInput = [] →
      privCheckAndProcessSpecialChars t (normChar c0) = SpecialResult.notHandled)
    (htab : processTabCompetion t (normChar c0) = TabResult.notHandled)
    (hcand : privFindHooks t.mHooks (t.mCurrentValidInput ++ [normChar c0]) = [h])
    (hwild : strchrPos h.name SPECIAL_KEYWORD_WILDCARD = some argIdx)
    (hlen : h.name.length ≤ (t.mCurrentValidInput ++ [normChar c0]).length) :
    (normChar c0 = '\n' →
      processChar t c0 = ProcResult.ret { t with mCurrentValidInput := [] }
        (echoEvents '\n' ++
          [Event.echo '\n', Event.invoke h.hook (t.mCurrentValidInput.drop argIdx)]))
    ∧ (normChar c0 ≠ '\n' →
      processChar t c0 = ProcResult.ret
          { t with mCurrentValidInput := t.mCurrentValidInput ++ [normChar c0] }
          (echoEvents (normChar c0))
        ∧ (echoEvents (normChar c0)).any isInvokeEvent = false) := by
  constructor
  · intro hnl
    rw [hnl] at hcand hlen
    rw [processChar_append_path t c0 hfull hspec htab, hnl,
      processAppend_single_wild_fire t h argIdx hcand hwild hlen]
  · intro hnl
    refine ⟨?_, echoEvents_no_invoke _⟩
    rw [processChar_append_path t c0 hfull hspec htab,
      processAppend_single_wild_wait t (normChar c0) h argIdx hcand hwild hlen hnl,
      List.append_nil]

theorem wildcard_fires_iff_terminator_witness :
    privFindHooks wTask1.mHooks (wTask1.mCurrentValidInput ++ [normChar '\n']) =
      [{ name := ['d', '*'], description := [], hook := 5 }] ∧
    ((normChar '\n' = '\n' →
      processChar wTask1 '\n' = ProcResult.ret { wTask1 with mCurrentValidInput := [] }
        (echoEvents '\n' ++
          [Event.echo '\n',
           Event.invoke ({ name := ['d', '*'], description := [], hook := 5 } : hookEntry_t).hook
             (wTask1.mCurrentValidInput.drop 1)]))
     ∧ (normChar '\n' ≠ '\n' →
      processChar wTask1 '\n' = ProcResult.ret
          { wTask1 with mCurrentValidInput := wTask1.mCurrentValidInput ++ [normChar '\n'] }
          (echoEvents (normChar '\n'))
        ∧ (echoEvents (normChar '\n')).any isInvokeEvent = false)) :=
  ⟨by decide,
   wildcard_fires_iff_terminator wTask1 '\n'
     { name := ['d', '*'], description := [], hook := 5 } 1
     (by decide) (by decide) (by decide) (by decide) (by decide) (by decide)⟩

/-- C1 counterexample: for the registered wildcard hook "a*b" (one
character after the marker) and buffer "a", the appended terminator
leaves exactly one candidate, the buffer length 2 exceeds the static
length 1, the last appended character is the terminator — yet process()
invokes nothing and retains the buffer, because the code compares
against the full name length 3, not the static length. -/
theorem wildcard_static_length_cex :
    privFindHooks cexWildTask.mHooks (cexWildTask.mCurrentValidInput ++ ['\n']) =
      [{ name := ['a', '*', 'b'], description := [], hook := 1 }] ∧
    staticLen ['a', '*', 'b'] = 1 ∧
    cexWildTask.mCurrentValidInput.length + 1 ≥ 1 ∧
    normChar '\n' = '\n' ∧
    processChar cexWildTask '\n' =
      ProcResult.ret { cexWildTask with mCurrentValidInput := ['a', '\n'] } [Event.echo '\n'] ∧
    ([Event.echo '\n'].any isInvokeEvent) = false := by decide

/-- C2: if appending the character leaves exactly one candidate with no
wildcard in its name and the buffer has reached its full name length,
process() immediately invokes it with the empty argument and resets the
buffer; with two or more candidates, or a unique candidate whose static
length exceeds the buffer, nothing is invoked and the grown buffer is
retained. -/
theorem exact_hook_fires_immediately (t : DiagTask) (c0 : Char)
    (hfull : t.mCurrentValidInput.length ≠ DIAGTASK_MAX_HOOK_INPUT_LEN)
    (hspec : t.mCurrentValidInput = [] →
      privCheckAndProcessSpecialChars t (normChar c0) = SpecialResult.notHandled)
    (htab : processTabCompetion t (normChar c0) = TabResult.notHandled) :
    (∀ h : hookEntry_t, privFindHooks t.mHooks (t.mCurrentValidInput ++ [normChar c0]) = [h] →
      strchrPos h.name SPECIAL_KEYWORD_WILDCARD = none →
      h.name.length ≤ (t.mCurrentValidInput ++ [normChar c0]).length →
      processChar t c0 = ProcResult.ret { t with mCurrentValidInput := [] }
        (echoEvents (normChar c0) ++ [Event.echo '\n', Event.invoke h.hook []]))
    ∧ (∀ h rest, privFindHooks t.mHooks (t.mCurrentValidInput ++ [normChar c0]) = h :: rest →
      rest ≠ [] →
      processChar t c0 = ProcResult.ret
          { t with mCurrentValidInput := t.mCurrentValidInput ++ [normChar c0] }
          (echoEvents (normChar c0))
        ∧ (echoEvents (normChar c0)).any isInvokeEvent = false)
    ∧ (∀ h : hookEntry_t, privFindHooks t.mHooks (t.mCurrentValidInput ++ [normChar c0]) = [h] →
      (t.mCurrentValidInput ++ [normChar c0]).length < staticLen h.name →
      processChar t c0 = ProcResult.ret
          { t with mCurrentValidInput := t.mCurrentValidInput ++ [normChar c0] }
          (echoEvents (normChar c0))
        ∧ (echoEvents (normChar c0)).any isInvokeEvent = false) := by
  refine ⟨?_, ?_, ?_⟩
  · intro h hcand hwild hlen
    rw [processChar_append_path t c0 hfull hspec htab,
      processAppend_single_exact t (normChar c0) h hcand hwild hlen]
  · intro h rest hcand hrest
    refine ⟨?_, echoEvents_no_invoke _⟩
    rw [processChar_append_path t c0 hfull hspec htab,
      processAppend_keep t (normChar c0) h rest hcand (fun hcontra => hrest hcontra.1),
      List.append_nil]
  · intro h hcand hshort
    have hlt : (t.mCurrentValidInput ++ [normChar c0]).length < h.name.length :=
      lt_of_lt_of_le hshort (staticLen_le_length h.name)
    refine ⟨?_, echoEvents_no_invoke _⟩
    rw [processChar_append_path t c0 hfull hspec htab,
      processAppend_keep t (normChar c0) h [] hcand (fun hcontra => absurd hcontra.2 (by omega)),
      List.append_nil]

theorem exact_hook_fires_immediately_witness :
    privFindHooks wTask2.mHooks (wTask2.mCurrentValidInput ++ [normChar 'c']) =
      [{ name := ['a', 'b', 'c'], description := [], hook := 1 }] ∧
    processChar wTask2 'c' = ProcResult.ret { wTask2 with mCurrentValidInput := [] }
      (echoEvents (normChar 'c') ++
        [Event.echo '\n',
         Event.invoke ({ name := ['a', 'b', 'c'], description := [], hook := 1 } : hookEntry_t).hook
           []]) :=
  ⟨by decide,
   (exact_hook_fires_immediately wTask2 'c' (by decide) (by decide) (by decide)).1
     { name := ['a', 'b', 'c'], description := [], hook := 1 }
     (by decide) (by decide) (by decide)⟩

/-- C4 (amended): a special-command action (help, separator, reboot; the
search branch is compiled out) happens only when the buffer is empty
and the corresponding feature bit is enabled (reboot additionally needs
a configured reboot pointer and never returns); when the buffer is
non-empty and below capacity, a trigger byte is appended and handled
purely as ordinary hook-name text, with no special-command output (at
capacity the byte is instead discarded and the buffer reset). -/
theorem special_chars_only_when_buffer_empty (t : DiagTask) (c0 : Char) :
    (∀ t' out, processChar t c0 = ProcResult.ret t' out → out.any isSpecialCmdEvent = true →
      t.mCurrentValidInput = [] ∧
        ((normChar c0 = SPECIAL_KEYWORD_HELP ∧ t.mFeatures &&& feature_Help ≠ 0) ∨
         (normChar c0 = SPECIAL_KEYWORD_SEPARATOR ∧ t.mFeatures &&& feature_Seperator ≠ 0)))
    ∧ (∀ out, processChar t c0 = ProcResult.hang out →
      t.mCurrentValidInput = [] ∧ normChar c0 = SPECIAL_KEYWORD_REBOOT ∧
        t.mFeatures &&& feature_Reboot ≠ 0 ∧ t.mReboot = true)
    ∧ ((c0 = SPECIAL_KEYWORD_HELP ∨ c0 = SPECIAL_KEYWORD_SEPARATOR ∨
        c0 = SPECIAL_KEYWORD_SEARCH ∨ c0 = SPECIAL_KEYWORD_REBOOT) →
      t.mCurrentValidInput ≠ [] → t.mCurrentValidInput.length ≠ DIAGTASK_MAX_HOOK_INPUT_LEN →
      processChar t c0 = ProcResult.ret (processAppend t c0).1
          (echoEvents c0 ++ (processAppend t c0).2)
        ∧ ((processAppend t c0).2).any isSpecialCmdEvent = false) := by
  refine ⟨fun t' out h hs => processChar_ret_special_inv t c0 t' out h hs,
    fun out h => processChar_hang_inv t c0 out h, ?_⟩
  intro hc hne hfull
  have hnn : normChar c0 = c0 := by
    rcases hc with rfl | rfl | rfl | rfl <;> decide
  have htab : processTabCompetion t (normChar c0) = TabResult.notHandled := by
    rw [hnn]
    refine tab_not_trigger t c0 ?_
    rcases hc with rfl | rfl | rfl | rfl <;> decide
  have h1 := processChar_append_path t c0 hfull (fun he => absurd he hne) htab
  rw [hnn] at h1
  exact ⟨h1, processAppend_no_special t c0⟩

theorem special_chars_only_when_buffer_empty_witness :
    wTask2.mCurrentValidInput ≠ [] ∧
    (processChar wTask2 '?' = ProcResult.ret (processAppend wTask2 '?').1
        (echoEvents '?' ++ (processAppend wTask2 '?').2)
      ∧ ((processAppend wTask2 '?').2).any isSpecialCmdEvent = false) :=
  ⟨by decide,
   (special_chars_only_when_buffer_empty wTask2 '?').2.2
     (Or.inl rfl) (by decide) (by decide)⟩

/-- C4 counterexample: with the help feature enabled and a reachable
non-empty buffer that is at capacity (30 characters consistent with the
wildcard hook "a*"), processing the help trigger '?' does NOT append
the byte as hook-name text: the buffer is reset to empty instead. -/
theorem special_char_full_buffer_cex :
    cexFullTask.mFeatures &&& feature_Help ≠ 0 ∧
    cexFullTask.mCurrentValidInput ≠ [] ∧
    processChar cexFullTask '?' =
      ProcResult.ret { cexFullTask with mCurrentValidInput := [] } [] ∧
    ({ cexFullTask with mCurrentValidInput := [] } : DiagTask).mCurrentValidInput ≠
      cexFullTask.mCurrentValidInput ++ ['?'] := by decide

/-- C5 (amended): when tab completion is enabled and the buffer is
below capacity, a processed tab character is consumed by the
tab-completion engine and never appended: an empty buffer is a no-op,
a unique candidate has its name printed, its callback invoked with the
empty argument and the buffer reset, and two or more candidates are
listed with no callback and the buffer (and whole state) unchanged.
(At capacity the buffer is instead reset without engaging the engine.) -/
theorem tab_completion_behavior (t : DiagTask)
    (hf : t.mFeatures &&& feature_TabCompletion ≠ 0)
    (hfull : t.mCurrentValidInput.length ≠ DIAGTASK_MAX_HOOK_INPUT_LEN) :
    (t.mCurrentValidInput = [] →
      processChar t SPECIAL_KEYWORD_TAB = ProcResult.ret t [])
    ∧ (∀ h : hookEntry_t, t.mCurrentValidInput ≠ [] →
      privFindHooks t.mHooks t.mCurrentValidInput = [h] →
      processChar t SPECIAL_KEYWORD_TAB = ProcResult.ret { t with mCurrentValidInput := [] }
        [Event.tabUniqueName h.name, Event.invoke h.hook []])
    ∧ (∀ h1 h2 rest, t.mCurrentValidInput ≠ [] →
      privFindHooks t.mHooks t.mCurrentValidInput = h1 :: h2 :: rest →
      processChar t SPECIAL_KEYWORD_TAB = ProcResult.ret t
          (Event.echo '\n' :: (h1 :: h2 :: rest).map (fun hh =>
            Event.tabCandidateLine t.mCurrentValidInput
              (hh.name.drop t.mCurrentValidInput.length) hh.description))
        ∧ (Event.echo '\n' :: (h1 :: h2 :: rest).map (fun hh =>
            Event.tabCandidateLine t.mCurrentValidInput
              (hh.name.drop t.mCurrentValidInput.length) hh.description)).any
            isInvokeEvent = false) := by
  have hn : normChar SPECIAL_KEYWORD_TAB = SPECIAL_KEYWORD_TAB := by decide
  have hsp : t.mCurrentValidInput = [] →
      privCheckAndProcessSpecialChars t (normChar SPECIAL_KEYWORD_TAB) =
        SpecialResult.notHandled := by
    intro _
    rw [hn]
    exact special_not_trigger t SPECIAL_KEYWORD_TAB (by decide) (by decide) (by decide)
  refine ⟨?_, ?_, ?_⟩
  · intro he
    rw [processChar_of_tab_handled t SPECIAL_KEYWORD_TAB t [] hfull hsp
      (by rw [hn]; exact processTab_empty_buffer t hf he)]
    rw [hn]
    rfl
  · intro h hne hcand
    rw [processChar_of_tab_handled t SPECIAL_KEYWORD_TAB _ _ hfull hsp
      (by rw [hn]; exact processTab_unique t h hf hne hcand)]
    rw [hn]
    rfl
  · intro h1 h2 rest hne hcand
    refine ⟨?_, ?_⟩
    · rw [processChar_of_tab_handled t SPECIAL_KEYWORD_TAB _ _ hfull hsp
        (by rw [hn]; exact processTab_multi t h1 h2 rest hf hne hcand)]
      rw [hn]
      rfl
    · simp [List.any_map, isInvokeEvent, Function.comp]

theorem tab_completion_behavior_witness :
    wTask4.mCurrentValidInput ≠ [] ∧
    (processChar wTask4 SPECIAL_KEYWORD_TAB = ProcResult.ret wTask4
        (Event.echo '\n' :: ([{ name := ['a', 'b', 'c'], description := [], hook := 1 },
                              { name := ['a', 'b', 'd'], description := [], hook := 2 }] :
            List hookEntry_t).map (fun hh =>
          Event.tabCandidateLine wTask4.mCurrentValidInput
            (hh.name.drop wTask4.mCurrentValidInput.length) hh.description))
      ∧ (Event.echo '\n' :: ([{ name := ['a', 'b', 'c'], description := [], hook := 1 },
                              { name := ['a', 'b', 'd'], description := [], hook := 2 }] :
            List hookEntry_t).map (fun hh =>
          Event.tabCandidateLine wTask4.mCurrentValidInput
            (hh.name.drop wTask4.mCurrentValidInput.length) hh.description)).any
          isInvokeEvent = false) :=
  ⟨by decide,
   (tab_completion_behavior wTask4 (by decide) (by decide)).2.2
     { name := ['a', 'b', 'c'], description := [], hook := 1 }
     { name := ['a', 'b', 'd'], description := [], hook := 2 }
     [] (by decide) (by decide)⟩

/-- C5 counterexample: tab completion enabled, non-empty buffer at
capacity with two candidates — the tab press is NOT handed off to the
tab engine and the buffer is NOT left unchanged: it is reset by the
overflow check. -/
theorem tab_full_buffer_cex :
    cexTabFullTask.mFeatures &&& feature_TabCompletion ≠ 0 ∧
    cexTabFullTask.mCurrentValidInput ≠ [] ∧
    2 ≤ (privFindHooks cexTabFullTask.mHooks cexTabFullTask.mCurrentValidInput).length ∧
    processChar cexTabFullTask '\t' =
      ProcResult.ret { cexTabFullTask with mCurrentValidInput := [] } [] ∧
    ({ cexTabFullTask with mCurrentValidInput := [] } : DiagTask).mCurrentValidInput ≠
      cexTabFullTask.mCurrentValidInput := by decide

/-- C7: a character arriving when the accumulated buffer is at capacity
DIAGTASK_MAX_HOOK_INPUT_LEN silently resets the buffer and stops, with
no callback invoked and no error reported (the model has no error
channel: the call just returns); likewise an appended character that
leaves zero candidate hooks silently resets the buffer with no
callback. -/
theorem overflow_and_unmatched_silent_reset (t : DiagTask) (c0 : Char) :
    (t.mCurrentValidInput.length = DIAGTASK_MAX_HOOK_INPUT_LEN →
      processChar t c0 = ProcResult.ret { t with mCurrentValidInput := [] }
          (echoEvents (normChar c0))
        ∧ (echoEvents (normChar c0)).any isInvokeEvent = false)
    ∧ (t.mCurrentValidInput.length ≠ DIAGTASK_MAX_HOOK_INPUT_LEN →
      (t.mCurrentValidInput = [] →
        privCheckAndProcessSpecialChars t (normChar c0) = SpecialResult.notHandled) →
      processTabCompetion t (normChar c0) = TabResult.notHandled →
      privFindHooks t.mHooks (t.mCurrentValidInput ++ [normChar c0]) = [] →
      processChar t c0 = ProcResult.ret { t with mCurrentValidInput := [] }
          (echoEvents (normChar c0))
        ∧ (echoEvents (normChar c0)).any isInvokeEvent = false) := by
  constructor
  · intro hfull
    refine ⟨?_, echoEvents_no_invoke _⟩
    rw [processChar.eq_def, if_pos hfull]
  · intro hfull hspec htab hnone
    refine ⟨?_, echoEvents_no_invoke _⟩
    rw [processChar_append_path t c0 hfull hspec htab,
      processAppend_nil_case t (normChar c0) hnone, List.append_nil]

theorem overflow_and_unmatched_silent_reset_witness :
    wTask3.mCurrentValidInput.length = DIAGTASK_MAX_HOOK_INPUT_LEN ∧
    (processChar wTask3 'q' = ProcResult.ret { wTask3 with mCurrentValidInput := [] }
        (echoEvents (normChar 'q'))
      ∧ (echoEvents (normChar 'q')).any isInvokeEvent = false) :=
  ⟨by decide, (overflow_and_unmatched_silent_reset wTask3 'q').1 (by decide)⟩

/-- C8: the console invariant — buffer length at most
DIAGTASK_MAX_HOOK_INPUT_LEN, and the buffer empty or consistent with at
least one registered hook — is preserved by every returning process()
step and by every registerHook() call. -/
theorem console_invariant_preserved (t : DiagTask) (c0 : Char) (name : Option (List Char))
    (hk : Option Nat) (desc : Option (List Char)) (hinv : DiagInv t) :
    (∀ t' out, processChar t c0 = ProcResult.ret t' out → DiagInv t') ∧
    DiagInv (registerHook t name hk desc).2 := by
  constructor
  · intro t' out h
    rw [processChar.eq_def] at h
    by_cases hfull : t.mCurrentValidInput.length = DIAGTASK_MAX_HOOK_INPUT_LEN
    · rw [if_pos hfull] at h
      injection h with e1 e2
      rw [← e1]
      exact diagInv_reset t
    · rw [if_neg hfull] at h
      by_cases he : t.mCurrentValidInput = []
      · rw [if_pos he] at h
        cases hps : privCheckAndProcessSpecialChars t (normChar c0) with
        | handled t2 out2 =>
          rw [hps] at h
          injection h with e1 e2
          rw [← e1, special_handled_state t (normChar c0) t2 out2 hps]
          exact diagInv_reset t
        | hang o2 =>
          rw [hps] at h
          cases h
        | notHandled =>
          rw [hps] at h
          cases hpt : processTabCompetion t (normChar c0) with
          | handled t2 out2 =>
            rw [hpt] at h
            injection h with e1 e2
            rcases tab_handled_state t (normChar c0) t2 out2 hpt with h2 | h2
            · rw [← e1, h2]
              exact hinv
            · rw [← e1, h2]
              exact diagInv_reset t
          | notHandled =>
            rw [hpt] at h
            injection h with e1 e2
            rw [← e1]
            exact processAppend_preserves_inv t (normChar c0) hinv hfull
      · rw [if_neg he] at h
        cases hpt : processTabCompetion t (normChar c0) with
        | handled t2 out2 =>
          rw [hpt] at h
          injection h with e1 e2
          rcases tab_handled_state t (normChar c0) t2 out2 hpt with h2 | h2
          · rw [← e1, h2]
            exact hinv
          · rw [← e1, h2]
            exact diagInv_reset t
        | notHandled =>
          rw [hpt] at h
          injection h with e1 e2
          rw [← e1]
          exact processAppend_preserves_inv t (normChar c0) hinv hfull
  · rcases registerHook_snd_cases t name hk desc with h2 | ⟨e, h2⟩
    · rw [h2]
      exact hinv
    · rw [h2]
      refine ⟨hinv.1, ?_⟩
      rcases hinv.2 with he | hne
      · exact Or.inl he
      · refine Or.inr ?_
        show privFindHooks (t.mHooks ++ [e]) t.mCurrentValidInput ≠ []
        rw [privFindHooks_append_aux]
        intro hcontra
        exact hne (List.append_eq_nil.mp hcontra).1

theorem console_invariant_preserved_witness :
    DiagInv wTask2 ∧ DiagInv (registerHook wTask2 (some ['q']) (some 9) none).2 :=
  ⟨⟨by decide, Or.inr (by decide)⟩,
   (console_invariant_preserved wTask2 'c' (some ['q']) (some 9) none
     ⟨by decide, Or.inr (by decide)⟩).2⟩

/-- C9 (amended): with the help feature enabled and an empty buffer,
processing '?' consumes the character (no fall-through), prints a
newline, one line per special command that is compiled in — help,
separator and reboot under the default configuration, search being
compiled out — regardless of which feature bits are currently enabled,
then every registered hook's name and description, and leaves the
buffer empty. -/
theorem help_lists_hooks_and_compiled_specials (t : DiagTask)
    (hh : t.mFeatures &&& feature_Help ≠ 0)
    (he : t.mCurrentValidInput = []) :
    processChar t SPECIAL_KEYWORD_HELP =
      ProcResult.ret { t with mCurrentValidInput := [] }
        ([Event.echo '\n',
          Event.helpSpecialLine SPECIAL_KEYWORD_HELP,
          Event.helpSpecialLine SPECIAL_KEYWORD_SEPARATOR,
          Event.helpSpecialLine SPECIAL_KEYWORD_REBOOT]
         ++ t.mHooks.map (fun h => Event.helpHookLine h.name h.description)) := by
  have hn : normChar SPECIAL_KEYWORD_HELP = SPECIAL_KEYWORD_HELP := by decide
  have hfull : t.mCurrentValidInput.length ≠ DIAGTASK_MAX_HOOK_INPUT_LEN := by
    rw [he]
    decide
  have hsp : privCheckAndProcessSpecialChars t (normChar SPECIAL_KEYWORD_HELP) =
      SpecialResult.handled { t with mCurrentValidInput := [] } (privHelp t) := by
    rw [hn, privCheckAndProcessSpecialChars.eq_def, if_pos ⟨hh, rfl⟩]
  rw [processChar_of_special_handled t SPECIAL_KEYWORD_HELP _ _ hfull he hsp, hn, privHelp]
  rfl

theorem help_lists_hooks_and_compiled_specials_witness :
    wTask5.mFeatures &&& feature_Help ≠ 0 ∧
    processChar wTask5 SPECIAL_KEYWORD_HELP =
      ProcResult.ret { wTask5 with mCurrentValidInput := [] }
        ([Event.echo '\n',
          Event.helpSpecialLine SPECIAL_KEYWORD_HELP,
          Event.helpSpecialLine SPECIAL_KEYWORD_SEPARATOR,
          Event.helpSpecialLine SPECIAL_KEYWORD_REBOOT]
         ++ wTask5.mHooks.map (fun h => Event.helpHookLine h.name h.description)) :=
  ⟨by decide,
   help_lists_hooks_and_compiled_specials wTask5 (by decide) (by decide)⟩

/-- C9 counterexample: with ONLY the help feature bit enabled (separator
and reboot feature bits are 0), the help action still prints the
"# - separator" and "! - reboot" lines: the per-special-command lines
are gated by compile-time flags, not by the runtime feature mask, so
"one line for each currently-enabled special command (and no line for a
special command that is not currently enabled)" fails. -/
theorem help_prints_disabled_specials_cex :
    cexHelpTask.mFeatures &&& feature_Seperator = 0 ∧
    cexHelpTask.mFeatures &&& feature_Reboot = 0 ∧
    processChar cexHelpTask '?' =
      ProcResult.ret { cexHelpTask with mCurrentValidInput := [] }
        [Event.echo '\n',
         Event.helpSpecialLine '?',
         Event.helpSpecialLine '#',
         Event.helpSpecialLine '!',
         Event.helpHookLine ['a', 'b'] ['d']] ∧
    Event.helpSpecialLine '#' ∈
      [Event.echo '\n',
       Event.helpSpecialLine '?',
       Event.helpSpecialLine '#',
       Event.helpSpecialLine '!',
       Event.helpHookLine ['a', 'b'] ['d']] := by decide
